import Mathlib

/-!
Verification of the query-resolution core of the `shunt` split-horizon DNS
resolver (`src/client/main.go`, package `client`).

The embedding is a faithful shallow translation of the Go source:

* Go maps and the `sync.Map` answer cache become association lists
  (`List (String × _)`) with first-match lookup; `Store` prepends after
  removing the old binding, `Delete` removes the binding.  A single
  sequential `resolve` call is modelled; the concurrency of `sync.Map` is
  outside the claims treated here.
* `time.Time` / `time.Duration` become absolute nanosecond counts (`Int`).
  `int(math.Ceil(elapsed.Seconds()))` is modelled as the exact integer
  ceiling of `elapsed / 10^9`, which is what the float computation denotes
  for every realistic duration.
* Go's in-place mutation of the cached answer slice (through the stored
  `*dnsCached` pointer) is modelled by explicit state passing: `cacheGet`
  returns the updated client next to its result.
* Upstream handles (`dnsClient` function values) are defunctionalised: the
  router stores values of an abstract type `H` and the dispatcher takes an
  interpretation `interp : H → String → Nat → List Answer` saying what
  calling a handle returns.  This is only a renaming of the closure
  environment; `H` instantiated at `String → Nat → List Answer` with
  `interp = id` recovers the Go shape.
-/

namespace Shunt

/-- One resolved DNS record, mirroring `type Answer struct` of the source:
owner name, record-type code (`uint16`), remaining time to live in seconds
(Go `int`), and the record value. -/
structure Answer where
  name : String
  type : Nat
  ttl  : Int
  data : String
deriving DecidableEq, Repr

/-- A stored cache value, mirroring `type dnsCached struct`: the answer set
and the absolute expiry instant (nanoseconds). -/
structure dnsCached where
  answer  : List Answer
  expired : Int
deriving DecidableEq, Repr

/-- Association-list model of a Go map / `sync.Map` read: the value of the
first binding of `key`, if any. -/
def mapLoad {α : Type} (m : List (String × α)) (key : String) : Option α :=
  match m with
  | [] => none
  | (k, v) :: rest => if k = key then some v else mapLoad rest key

/-- Association-list model of `sync.Map.Delete`: drop every binding of
`key`. -/
def mapDelete {α : Type} : List (String × α) → String → List (String × α)
  | [], _ => []
  | (k, v) :: rest, key =>
    if k = key then mapDelete rest key else (k, v) :: mapDelete rest key

/-- Association-list model of `sync.Map.Store`: bind `key` to `v`,
replacing any previous binding, keeping at most one binding per key. -/
def mapStore {α : Type} (m : List (String × α)) (key : String) (v : α) :
    List (String × α) :=
  (key, v) :: mapDelete m key

/-- Counts the leading backslash characters of a character list.  Applied to
the reversed domain name with its final dot removed, it counts the escape
characters immediately before that dot, as `dns.IsFqdn` does. -/
def leadingBackslashes : List Char → Nat
  | [] => 0
  | c :: rest => if c = '\\' then leadingBackslashes rest + 1 else 0

/-- Embeds `dns.IsFqdn` of the miekg/dns library used by the source: a name
is fully qualified when it ends in a dot that is not escaped, i.e. preceded
by an even number of backslashes. -/
def IsFqdn (s : String) : Bool :=
  match s.data.reverse with
  | [] => false
  | c :: rest => c = '.' && leadingBackslashes rest % 2 = 0

/-- Embeds `dns.Fqdn` of the miekg/dns library: append a trailing dot unless
the name is already fully qualified.  Note that it does not change the
letter case of the name. -/
def Fqdn (s : String) : String :=
  if IsFqdn s then s else s ++ "."

/-- Collects, in left-to-right order, every suffix of the character list
that starts immediately after a dot and is nonempty.  For a fully qualified
domain these are exactly the proper parent domains above it, down to (and
excluding) the root. -/
def labelSuffixes : List Char → List (List Char)
  | [] => []
  | c :: rest =>
    if c = '.' ∧ rest ≠ [] then rest :: labelSuffixes rest
    else labelSuffixes rest

/-- The walk sequence of the routing lookup: the queried domain itself
followed by each successive parent domain obtained by stripping one leftmost
label at a time, stopping at the root. -/
def suffixChain (domain : String) : List String :=
  (domain.data :: labelSuffixes domain.data).map (fun cs => String.mk cs)

/-- First hit of the routing table along a list of candidate domains. -/
def firstHit {H : Type} (r : List (String × H)) : List String → Option H
  | [] => none
  | s :: rest =>
    match mapLoad r s with
    | some cli => some cli
    | none => firstHit r rest

/-- Modelled from the spec: the repository's routing table `dnsRouter`
(field `router` of `DNSClient`, methods `add` and `route`) is not under
`src/`; only its call sites in `main.go` are.  Following §4.1, `route`
returns the handle bound to the longest configured domain that is a suffix
of (or equal to) the queried domain, walking from the full domain through
successive parent domains — stripping one leftmost label at a time — until a
match is found or the root is reached, and returns none if no configured
domain matches. -/
def route {H : Type} (r : List (String × H)) (domain : String) : Option H :=
  firstHit r (suffixChain domain)

/-- Modelled from the spec: `dnsRouter.add` is not under `src/`.  Following
§4.1, `add` registers a handle for a domain in a map keyed by the domain;
re-adding the same exact domain silently replaces the mapping (last
registration wins).  With first-match lookup, prepending realises exactly
that map behaviour. -/
def routerAdd {H : Type} (r : List (String × H)) (domain : String) (cli : H) :
    List (String × H) :=
  (domain, cli) :: r

/-- The resolver state, mirroring `type DNSClient struct`: the answer cache,
the routing table, and the two static override tables. -/
structure DNSClient (H : Type) where
  cache      : List (String × dnsCached)
  router     : List (String × H)
  staticIpV4 : List (String × String)
  staticIpV6 : List (String × String)
deriving DecidableEq, Repr

/-- Nanoseconds per second, the scale between `time.Duration` counts and
whole-second time-to-live values. -/
def nsPerSec : Int := 1000000000

/-- Minimum time to live of a nonempty answer list, computed exactly as the
loop in `cacheSet` does: start from the first answer and fold a
strictly-less comparison over the rest. -/
def minTTL (answer : List Answer) : Int :=
  match answer with
  | [] => 0
  | a :: rest => rest.foldl (fun m ans => if ans.ttl < m then ans.ttl else m) a.ttl

/-- Embeds `(*DNSClient).cacheSet`: a no-op on an empty answer list;
otherwise stores the answer set under `key` with absolute expiry
`now + minTTL` seconds. -/
def cacheSet {H : Type} (c : DNSClient H) (now : Int) (key : String)
    (answer : List Answer) : DNSClient H :=
  match answer with
  | [] => c
  | _ :: _ =>
    { c with cache := mapStore c.cache key ⟨answer, now + minTTL answer * nsPerSec⟩ }

/-- Remaining time to live of a cache entry:
`int(math.Ceil(elapsed.Seconds()))` where `elapsed = expired - now`, i.e.
the integer ceiling of the elapsed nanoseconds divided by `10^9`. -/
def remainingTTL (expired now : Int) : Int :=
  (expired - now + (nsPerSec - 1)) / nsPerSec

/-- Embeds `(*DNSClient).cacheGet`: a missing key reports not-found; an
entry whose remaining time to live is `≤ 0` is deleted and reports
not-found; otherwise the ttl field of every stored answer is rewritten (in
the Go source, in place through the stored pointer) to the remaining time to
live, and that stored answer list is returned.  The updated client is
returned next to the result to model the in-place mutation. -/
def cacheGet {H : Type} (c : DNSClient H) (now : Int) (key : String) :
    DNSClient H × Option (List Answer) :=
  match mapLoad c.cache key with
  | none => (c, none)
  | some cached =>
    let ttl := remainingTTL cached.expired now
    if ttl ≤ 0 then
      ({ c with cache := mapDelete c.cache key }, none)
    else
      let updated := cached.answer.map (fun a => { a with ttl := ttl })
      ({ c with cache := mapStore c.cache key ⟨updated, cached.expired⟩ },
        some updated)

/-- `dns.TypeA`, the record-type code of an IPv4 address query. -/
def TypeA : Nat := 1

/-- `dns.TypeAAAA`, the record-type code of an IPv6 address query. -/
def TypeAAAA : Nat := 28

/-- The cache key built in `Query`:
`name + "|" + strconv.Itoa(int(qtype))`. -/
def cacheKeyOf (name : String) (qtype : Nat) : String :=
  name ++ "|" ++ Nat.repr qtype

/-- The cache-and-routing tail of `Query`, after the static override tables
have been passed: consult the cache under the composite key; on a miss, look
up an upstream handle, and either return an empty result (no route) or call
the handle, store its result, and return it verbatim. -/
def queryCacheRoute {H : Type} (interp : H → String → Nat → List Answer)
    (c : DNSClient H) (now : Int) (name : String) (qtype : Nat) :
    DNSClient H × List Answer :=
  let cacheKey := cacheKeyOf name qtype
  match cacheGet c now cacheKey with
  | (c1, some cached) => (c1, cached)
  | (c1, none) =>
    match route c1.router name with
    | none => (c1, [])
    | some cli =>
      let ans := interp cli name qtype
      (cacheSet c1 now cacheKey ans, ans)

/-- Embeds `(*DNSClient).Query`, the dispatcher: normalise the name with
`dns.Fqdn`; serve an A (resp. AAAA) query from the IPv4 (resp. IPv6) static
override table when it has an exact entry, synthesising a single answer with
ttl 60 and leaving the state untouched; otherwise fall through to the cache
and the routing table.  A Go `nil` result is the empty list. -/
def Query {H : Type} (interp : H → String → Nat → List Answer)
    (c : DNSClient H) (now : Int) (name0 : String) (qtype : Nat) :
    DNSClient H × List Answer :=
  let name := Fqdn name0
  if qtype = TypeA then
    match mapLoad c.staticIpV4 name with
    | some staticIp => (c, [⟨name, qtype, 60, staticIp⟩])
    | none => queryCacheRoute interp c now name qtype
  else if qtype = TypeAAAA then
    match mapLoad c.staticIpV6 name with
    | some staticIp => (c, [⟨name, qtype, 60, staticIp⟩])
    | none => queryCacheRoute interp c now name qtype
  else
    queryCacheRoute interp c now name qtype

/-- No static override applies to this fully-qualified name and query type:
an A query finds no IPv4 entry and an AAAA query finds no IPv6 entry. -/
@[reducible]
def noOverride {H : Type} (c : DNSClient H) (name : String) (qtype : Nat) : Prop :=
  (qtype = TypeA → mapLoad c.staticIpV4 name = none) ∧
  (qtype = TypeAAAA → mapLoad c.staticIpV6 name = none)

/-! Concrete instances used to exercise the theorems below. -/

/-- A resolver with empty cache, routing table and override tables. -/
def emptyClient (H : Type) : DNSClient H := ⟨[], [], [], []⟩

/-- The nested routing rules of §8: register `example.com.` to handle 1,
then `mail.example.com.` to handle 2. -/
def exRouteTable : List (String × Nat) :=
  routerAdd (routerAdd ([] : List (String × Nat)) "example.com." 1) "mail.example.com." 2

/-- The min-TTL example of §8: two answers with ttl 5 and ttl 30. -/
def exMinAnswers : List Answer :=
  [⟨"example.com.", 1, 5, "5.5.5.5"⟩, ⟨"example.com.", 1, 30, "3.3.3.3"⟩]

/-- An answer list whose minimum ttl is 0. -/
def exZeroAnswers : List Answer := [⟨"a.", 1, 0, "0.0.0.0"⟩]

/-- A cached entry with one answer, expiring at the 5-second instant. -/
def exFreshEntry : dnsCached := ⟨[⟨"a.example.com.", 1, 9, "1.1.1.1"⟩], 5000000000⟩

/-- A client whose cache holds `exFreshEntry` under the key `k`. -/
def exFreshClient : DNSClient Unit := ⟨[("k", exFreshEntry)], [], [], []⟩

/-- A client whose routing table binds the domain `com.`. -/
def comClient : DNSClient Unit := ⟨[], [("com.", ())], [], []⟩

/-- An upstream interpretation answering every query with one record of
ttl 100 naming the queried domain. -/
def constUpstream : Unit → String → Nat → List Answer :=
  fun _ n q => [⟨n, q, 100, "1.2.3.4"⟩]

/-- A client with handle 5 registered for `example.com.` (handles are `Nat`
so that distinct handles can be told apart). -/
def natRouteClient : DNSClient Nat := ⟨[], [("example.com.", 5)], [], []⟩

/-- An upstream interpretation for `Nat` handles: one record of ttl 7. -/
def natUpstream : Nat → String → Nat → List Answer :=
  fun _ n q => [⟨n, q, 7, "9.9.9.9"⟩]

/-- A client holding an IPv4 static override for `example.com.`, and also a
cache entry and a routing rule for it, to show the override wins over
both. -/
def overrideClient : DNSClient Unit :=
  ⟨[("example.com.|1", ⟨[⟨"example.com.", 1, 50, "8.8.8.8"⟩], 1000000000000⟩)],
    [("com.", ())], [("example.com.", "9.9.9.9")], []⟩

end Shunt

namespace Shunt

/-! Helper lemmas about the association-list maps and the ttl fold. -/

theorem mapLoad_mapStore_self {α : Type} (m : List (String × α)) (key : String) (v : α) :
    mapLoad (mapStore m key v) key = some v := by
  simp [mapStore, mapLoad]

theorem mapLoad_mapDelete_self {α : Type} (m : List (String × α)) (key : String) :
    mapLoad (mapDelete m key) key = none := by
  induction m with
  | nil => rfl
  | cons p rest ih =>
    obtain ⟨k, v⟩ := p
    by_cases h : k = key
    · simpa [mapDelete, h] using ih
    · simp [mapDelete, mapLoad, h, ih]

theorem ttlFold_le_init (l : List Answer) :
    ∀ init : Int, l.foldl (fun m ans => if ans.ttl < m then ans.ttl else m) init ≤ init := by
  induction l with
  | nil => intro init; simp
  | cons b rest ih =>
    intro init
    simp only [List.foldl_cons]
    exact le_trans (ih _) (by split <;> omega)

theorem ttlFold_le_mem (l : List Answer) :
    ∀ (init : Int) (a : Answer), a ∈ l →
      l.foldl (fun m ans => if ans.ttl < m then ans.ttl else m) init ≤ a.ttl := by
  induction l with
  | nil => intro init a ha; cases ha
  | cons b rest ih =>
    intro init a ha
    simp only [List.foldl_cons]
    rcases List.mem_cons.mp ha with rfl | h
    · exact le_trans (ttlFold_le_init rest _) (by split <;> omega)
    · exact ih _ a h

theorem ttlFold_mem (l : List Answer) :
    ∀ init : Int,
      l.foldl (fun m ans => if ans.ttl < m then ans.ttl else m) init = init ∨
        ∃ a ∈ l, l.foldl (fun m ans => if ans.ttl < m then ans.ttl else m) init = a.ttl := by
  induction l with
  | nil => intro init; left; rfl
  | cons b rest ih =>
    intro init
    simp only [List.foldl_cons]
    rcases ih (if b.ttl < init then b.ttl else init) with h | ⟨a, ha, h⟩
    · by_cases hb : b.ttl < init
      · right
        exact ⟨b, List.mem_cons_self b rest, by rw [h]; simp [hb]⟩
      · left
        rw [h]
        simp [hb]
    · right
      exact ⟨a, List.mem_cons_of_mem _ ha, h⟩

theorem minTTL_le (answer : List Answer) (a : Answer) (ha : a ∈ answer) :
    minTTL answer ≤ a.ttl := by
  match answer with
  | [] => cases ha
  | b :: rest =>
    simp only [minTTL]
    rcases List.mem_cons.mp ha with rfl | h
    · exact ttlFold_le_init rest a.ttl
    · exact ttlFold_le_mem rest b.ttl a h

theorem minTTL_mem (answer : List Answer) (h : answer ≠ []) :
    ∃ a ∈ answer, minTTL answer = a.ttl := by
  match answer with
  | [] => exact absurd rfl h
  | b :: rest =>
    simp only [minTTL]
    rcases ttlFold_mem rest b.ttl with h0 | ⟨a, ha, h0⟩
    · exact ⟨b, List.mem_cons_self b rest, h0⟩
    · exact ⟨a, List.mem_cons_of_mem _ ha, h0⟩

/-- C3: on a cache read, the remaining time to live is the ceiling of
`expiresAt − now` in seconds (characterised here as the unique integer `t`
with `(t − 1)·10⁹ < expiresAt − now ≤ t·10⁹`); an entry whose remaining ttl
is ≤ 0 — including exactly at the expiry boundary — is evicted and reported
not-found, and a later read for the same key is still not-found without
re-insertion; an entry with remaining ttl > 0 is reported found with every
returned answer's ttl field rewritten to that one remaining value. -/
theorem cacheGet_remaining_ttl :
    (∀ expired now : Int,
        (remainingTTL expired now - 1) * nsPerSec < expired - now ∧
          expired - now ≤ remainingTTL expired now * nsPerSec) ∧
    (∀ (H : Type) (c : DNSClient H) (now now2 : Int) (key : String) (e : dnsCached),
        mapLoad c.cache key = some e → remainingTTL e.expired now ≤ 0 →
          cacheGet c now key = ({ c with cache := mapDelete c.cache key }, none) ∧
            (cacheGet { c with cache := mapDelete c.cache key } now2 key).2 = none) ∧
    (∀ (H : Type) (c : DNSClient H) (now : Int) (key : String) (e : dnsCached),
        mapLoad c.cache key = some e → 0 < remainingTTL e.expired now →
          cacheGet c now key =
            ({ c with cache := (mapStore c.cache key
                ⟨e.answer.map (fun a => { a with ttl := remainingTTL e.expired now }),
                  e.expired⟩) },
              some (e.answer.map (fun a => { a with ttl := remainingTTL e.expired now }))) ∧
            ∀ a ∈ e.answer.map (fun a => { a with ttl := remainingTTL e.expired now }),
              a.ttl = remainingTTL e.expired now) := by
  refine ⟨?_, ?_, ?_⟩
  · intro expired now
    simp only [remainingTTL, nsPerSec]
    omega
  · intro H c now now2 key e hload hle
    refine ⟨by simp [cacheGet, hload, hle], ?_⟩
    simp [cacheGet, mapLoad_mapDelete_self]
  · intro H c now key e hload hpos
    have hne : ¬ remainingTTL e.expired now ≤ 0 := not_le.mpr hpos
    refine ⟨by simp [cacheGet, hload, hne], ?_⟩
    intro a ha
    rcases List.mem_map.mp ha with ⟨b, _, rfl⟩
    rfl

/-- Witness for C3 at a concrete fresh entry. -/
theorem cacheGet_remaining_ttl_witness :
    mapLoad exFreshClient.cache "k" = some exFreshEntry ∧
    0 < remainingTTL exFreshEntry.expired 0 ∧
    cacheGet exFreshClient 0 "k" =
      ({ exFreshClient with cache := (mapStore exFreshClient.cache "k"
          ⟨exFreshEntry.answer.map (fun a => { a with ttl := remainingTTL exFreshEntry.expired 0 }),
            exFreshEntry.expired⟩) },
        some (exFreshEntry.answer.map
          (fun a => { a with ttl := remainingTTL exFreshEntry.expired 0 }))) :=
  ⟨by decide, by decide,
    (cacheGet_remaining_ttl.2.2 Unit exFreshClient 0 "k" exFreshEntry (by decide) (by decide)).1⟩

/-- C4: storing a nonempty answer set records it with absolute expiry
`now + minTTL` seconds, where `minTTL` is the minimum time to live across
the set (it is the ttl of one of the answers and a lower bound of all of
them); concretely, caching answers with ttl 5 and ttl 30 and reading back
immediately reports remaining ttl 5 for all returned answers, not 30. -/
theorem cacheSet_min_ttl :
    (∀ (H : Type) (c : DNSClient H) (now : Int) (key : String) (answer : List Answer),
        answer ≠ [] →
          mapLoad (cacheSet c now key answer).cache key =
            some ⟨answer, now + minTTL answer * nsPerSec⟩ ∧
          (∃ a ∈ answer, minTTL answer = a.ttl) ∧
          (∀ a ∈ answer, minTTL answer ≤ a.ttl)) ∧
    (cacheGet (cacheSet (emptyClient Unit) 0 "example.com.|1" exMinAnswers) 0
        "example.com.|1").2 =
      some [⟨"example.com.", 1, 5, "5.5.5.5"⟩, ⟨"example.com.", 1, 5, "3.3.3.3"⟩] := by
  constructor
  · intro H c now key answer hne
    refine ⟨?_, minTTL_mem answer hne, fun a ha => minTTL_le answer a ha⟩
    match answer, hne with
    | b :: rest, _ => simp [cacheSet, mapLoad_mapStore_self]
  · decide

/-- Witness for C4 at the concrete ttl-5/ttl-30 answer set. -/
theorem cacheSet_min_ttl_witness :
    exMinAnswers ≠ [] ∧
    mapLoad (cacheSet (emptyClient Unit) 0 "example.com.|1" exMinAnswers).cache
        "example.com.|1" =
      some ⟨exMinAnswers, 0 + minTTL exMinAnswers * nsPerSec⟩ :=
  ⟨by decide,
    (cacheSet_min_ttl.1 Unit (emptyClient Unit) 0 "example.com.|1" exMinAnswers
      (by decide)).1⟩

/-- C5: storing an empty answer list is a no-op — the client is returned
unchanged — and therefore a read of a key that was not cached before such a
store still reports not-found. -/
theorem cacheSet_empty_noop :
    (∀ (H : Type) (c : DNSClient H) (now : Int) (key : String),
        cacheSet c now key [] = c) ∧
    (∀ (H : Type) (c : DNSClient H) (now now2 : Int) (key : String),
        mapLoad c.cache key = none →
          cacheGet (cacheSet c now key []) now2 key = (c, none)) := by
  constructor
  · intro H c now key
    rfl
  · intro H c now now2 key h
    simp [cacheSet, cacheGet, h]

/-- Witness for C5 on an empty client. -/
theorem cacheSet_empty_noop_witness :
    mapLoad (emptyClient Unit).cache "k" = none ∧
    cacheGet (cacheSet (emptyClient Unit) 3 "k" []) 8 "k" = (emptyClient Unit, none) :=
  ⟨by decide, cacheSet_empty_noop.2 Unit (emptyClient Unit) 3 8 "k" (by decide)⟩

/-- C9: a successful cache read updates the stored state — after the read,
the entry stored under the key carries the rewritten ttl fields, and the
returned answer list is exactly the list now stored (the Go source writes
through the stored pointer and returns that same slice); a later fresh read
of the same key starts from the rewritten list and rewrites it again. -/
theorem cacheGet_mutates_stored_entry :
    ∀ (H : Type) (c : DNSClient H) (now : Int) (key : String) (e : dnsCached),
      mapLoad c.cache key = some e → 0 < remainingTTL e.expired now →
        (cacheGet c now key).2 =
          some (e.answer.map (fun a => { a with ttl := remainingTTL e.expired now })) ∧
        mapLoad ((cacheGet c now key).1).cache key =
          some ⟨e.answer.map (fun a => { a with ttl := remainingTTL e.expired now }),
            e.expired⟩ ∧
        ∀ now2 : Int, 0 < remainingTTL e.expired now2 →
          (cacheGet (cacheGet c now key).1 now2 key).2 =
            some ((e.answer.map (fun a => { a with ttl := remainingTTL e.expired now })).map
              (fun a => { a with ttl := remainingTTL e.expired now2 })) := by
  intro H c now key e hload hpos
  have hne : ¬ remainingTTL e.expired now ≤ 0 := not_le.mpr hpos
  have hget : cacheGet c now key =
      ({ c with cache := (mapStore c.cache key
          ⟨e.answer.map (fun a => { a with ttl := remainingTTL e.expired now }), e.expired⟩) },
        some (e.answer.map (fun a => { a with ttl := remainingTTL e.expired now }))) := by
    simp [cacheGet, hload, hne]
  rw [hget]
  refine ⟨rfl, mapLoad_mapStore_self _ _ _, ?_⟩
  intro now2 hpos2
  have hne2 : ¬ remainingTTL e.expired now2 ≤ 0 := not_le.mpr hpos2
  simp [cacheGet, mapLoad_mapStore_self, hne2]

/-- Witness for C9: reading the entry at time 0 rewrites the stored ttl to
5; a second read at 4000000001 ns rewrites it again to 1. -/
theorem cacheGet_mutates_stored_entry_witness :
    mapLoad exFreshClient.cache "k" = some exFreshEntry ∧
    0 < remainingTTL exFreshEntry.expired 0 ∧
    0 < remainingTTL exFreshEntry.expired 4000000001 ∧
    (cacheGet (cacheGet exFreshClient 0 "k").1 4000000001 "k").2 =
      some ((exFreshEntry.answer.map
          (fun a => { a with ttl := remainingTTL exFreshEntry.expired 0 })).map
        (fun a => { a with ttl := remainingTTL exFreshEntry.expired 4000000001 })) :=
  ⟨by decide, by decide, by decide,
    (cacheGet_mutates_stored_entry Unit exFreshClient 0 "k" exFreshEntry
      (by decide) (by decide)).2.2 4000000001 (by decide)⟩

/-- C10: a nonempty answer set whose minimum ttl is ≤ 0 is still stored (the
recorded expiry is at or before `now`), and any later read of that key
computes a remaining ttl ≤ 0, evicts the entry and reports not-found. -/
theorem cacheSet_nonpositive_ttl :
    ∀ (H : Type) (c : DNSClient H) (now : Int) (key : String) (answer : List Answer),
      answer ≠ [] → minTTL answer ≤ 0 →
        mapLoad (cacheSet c now key answer).cache key =
          some ⟨answer, now + minTTL answer * nsPerSec⟩ ∧
        now + minTTL answer * nsPerSec ≤ now ∧
        ∀ now2 : Int, now ≤ now2 →
          (cacheGet (cacheSet c now key answer) now2 key).2 = none ∧
          mapLoad ((cacheGet (cacheSet c now key answer) now2 key).1).cache key = none := by
  intro H c now key answer hne hm
  have hstore : mapLoad (cacheSet c now key answer).cache key =
      some ⟨answer, now + minTTL answer * nsPerSec⟩ := by
    match answer, hne with
    | b :: rest, _ => simp [cacheSet, mapLoad_mapStore_self]
  refine ⟨hstore, ?_, ?_⟩
  · simp only [nsPerSec]
    omega
  · intro now2 h2
    have httl : remainingTTL (now + minTTL answer * nsPerSec) now2 ≤ 0 := by
      simp only [remainingTTL, nsPerSec]
      omega
    constructor
    · simp [cacheGet, hstore, httl]
    · simp [cacheGet, hstore, httl, mapLoad_mapDelete_self]

/-- Witness for C10 at a concrete ttl-0 answer. -/
theorem cacheSet_nonpositive_ttl_witness :
    exZeroAnswers ≠ [] ∧ minTTL exZeroAnswers ≤ 0 ∧ (5 : Int) ≤ 7 ∧
    (cacheGet (cacheSet (emptyClient Unit) 5 "k" exZeroAnswers) 7 "k").2 = none :=
  ⟨by decide, by decide, by decide,
    ((cacheSet_nonpositive_ttl Unit (emptyClient Unit) 5 "k" exZeroAnswers
      (by decide) (by decide)).2.2 7 (by decide)).1⟩

theorem cacheGet_fst_router {H : Type} (c : DNSClient H) (now : Int) (key : String) :
    ((cacheGet c now key).1).router = c.router := by
  rcases h : mapLoad c.cache key with _ | e
  · simp [cacheGet, h]
  · by_cases ht : remainingTTL e.expired now ≤ 0 <;> simp [cacheGet, h, ht]

/-- C1: the dispatcher applies its fixed precedence.  The queried name is
normalised with `Fqdn` before every lookup; an A (resp. AAAA) query with an
exact IPv4 (resp. IPv6) override entry returns the synthesized answer at
once; otherwise a fresh cache entry is returned as-is; otherwise, when the
routing table yields a handle, the handle is invoked, its result is stored
in the cache, and that result is returned verbatim — ttl values exactly as
the upstream reported them. -/
theorem query_dispatch_precedence :
    (∀ (H : Type) (interp : H → String → Nat → List Answer) (c : DNSClient H)
        (now : Int) (name0 staticIp : String),
        mapLoad c.staticIpV4 (Fqdn name0) = some staticIp →
          Query interp c now name0 TypeA = (c, [⟨Fqdn name0, TypeA, 60, staticIp⟩])) ∧
    (∀ (H : Type) (interp : H → String → Nat → List Answer) (c : DNSClient H)
        (now : Int) (name0 staticIp : String),
        mapLoad c.staticIpV6 (Fqdn name0) = some staticIp →
          Query interp c now name0 TypeAAAA = (c, [⟨Fqdn name0, TypeAAAA, 60, staticIp⟩])) ∧
    (∀ (H : Type) (interp : H → String → Nat → List Answer) (c c1 : DNSClient H)
        (now : Int) (name0 : String) (qtype : Nat) (ans : List Answer),
        noOverride c (Fqdn name0) qtype →
          cacheGet c now (cacheKeyOf (Fqdn name0) qtype) = (c1, some ans) →
          Query interp c now name0 qtype = (c1, ans)) ∧
    (∀ (H : Type) (interp : H → String → Nat → List Answer) (c c1 : DNSClient H)
        (now : Int) (name0 : String) (qtype : Nat) (cli : H),
        noOverride c (Fqdn name0) qtype →
          cacheGet c now (cacheKeyOf (Fqdn name0) qtype) = (c1, none) →
          route c1.router (Fqdn name0) = some cli →
          Query interp c now name0 qtype =
            (cacheSet c1 now (cacheKeyOf (Fqdn name0) qtype)
                (interp cli (Fqdn name0) qtype),
              interp cli (Fqdn name0) qtype)) := by
  have hAAne : TypeAAAA ≠ TypeA := by decide
  refine ⟨?_, ?_, ?_, ?_⟩
  · intro H interp c now name0 staticIp hs
    simp [Query, hs]
  · intro H interp c now name0 staticIp hs
    simp [Query, hs, hAAne]
  · intro H interp c c1 now name0 qtype ans hno hcg
    obtain ⟨hnoA, hnoB⟩ := hno
    by_cases hA : qtype = TypeA
    · subst hA
      simp [Query, hnoA rfl, queryCacheRoute, hcg]
    · by_cases hB : qtype = TypeAAAA
      · subst hB
        simp [Query, hnoB rfl, hAAne, queryCacheRoute, hcg]
      · simp [Query, hA, hB, queryCacheRoute, hcg]
  · intro H interp c c1 now name0 qtype cli hno hcg hroute
    obtain ⟨hnoA, hnoB⟩ := hno
    by_cases hA : qtype = TypeA
    · subst hA
      simp [Query, hnoA rfl, queryCacheRoute, hcg, hroute]
    · by_cases hB : qtype = TypeAAAA
      · subst hB
        simp [Query, hnoB rfl, hAAne, queryCacheRoute, hcg, hroute]
      · simp [Query, hA, hB, queryCacheRoute, hcg, hroute]

/-- Witness for C1: an A query with no override and an empty cache invokes
the handle registered for the parent domain and caches its result. -/
theorem query_dispatch_precedence_witness :
    noOverride natRouteClient (Fqdn "a.example.com") TypeA ∧
    cacheGet natRouteClient 0 (cacheKeyOf (Fqdn "a.example.com") TypeA) =
      (natRouteClient, none) ∧
    route natRouteClient.router (Fqdn "a.example.com") = some 5 ∧
    Query natUpstream natRouteClient 0 "a.example.com" TypeA =
      (cacheSet natRouteClient 0 (cacheKeyOf (Fqdn "a.example.com") TypeA)
          (natUpstream 5 (Fqdn "a.example.com") TypeA),
        natUpstream 5 (Fqdn "a.example.com") TypeA) :=
  ⟨by decide, by decide, by decide,
    query_dispatch_precedence.2.2.2 Nat natUpstream natRouteClient natRouteClient 0
      "a.example.com" TypeA 5 (by decide) (by decide) (by decide)⟩

/-- C6: a static override always wins for the matching record type — an A
(resp. AAAA) query for a domain in the IPv4 (resp. IPv6) table returns one
synthesized answer with ttl 60 and the literal address as data, whatever the
cache and routing table hold, and leaves the whole client state (hence the
cache) untouched; a query of the non-matching record type falls through to
the cache-and-routing path. -/
theorem static_override_precedence :
    (∀ (H : Type) (interp : H → String → Nat → List Answer) (c : DNSClient H)
        (now : Int) (name0 ip : String),
        mapLoad c.staticIpV4 (Fqdn name0) = some ip →
          Query interp c now name0 TypeA = (c, [⟨Fqdn name0, TypeA, 60, ip⟩])) ∧
    (∀ (H : Type) (interp : H → String → Nat → List Answer) (c : DNSClient H)
        (now : Int) (name0 ip : String),
        mapLoad c.staticIpV6 (Fqdn name0) = some ip →
          Query interp c now name0 TypeAAAA = (c, [⟨Fqdn name0, TypeAAAA, 60, ip⟩])) ∧
    (∀ (H : Type) (interp : H → String → Nat → List Answer) (c : DNSClient H)
        (now : Int) (name0 : String),
        mapLoad c.staticIpV6 (Fqdn name0) = none →
          Query interp c now name0 TypeAAAA =
            queryCacheRoute interp c now (Fqdn name0) TypeAAAA) ∧
    (∀ (H : Type) (interp : H → String → Nat → List Answer) (c : DNSClient H)
        (now : Int) (name0 : String),
        mapLoad c.staticIpV4 (Fqdn name0) = none →
          Query interp c now name0 TypeA =
            queryCacheRoute interp c now (Fqdn name0) TypeA) := by
  have hAAne : TypeAAAA ≠ TypeA := by decide
  refine ⟨?_, ?_, ?_, ?_⟩
  · intro H interp c now name0 ip hs
    simp [Query, hs]
  · intro H interp c now name0 ip hs
    simp [Query, hs, hAAne]
  · intro H interp c now name0 hs
    simp [Query, hs, hAAne]
  · intro H interp c now name0 hs
    simp [Query, hs]

/-- Witness for C6: `overrideClient` has an IPv4 override, a fresh cache
entry and a routing rule for `example.com.`; the A query is served from the
override with the state unchanged, while the AAAA query falls through. -/
theorem static_override_precedence_witness :
    mapLoad overrideClient.staticIpV4 (Fqdn "example.com") = some "9.9.9.9" ∧
    Query constUpstream overrideClient 0 "example.com" TypeA =
      (overrideClient, [⟨Fqdn "example.com", TypeA, 60, "9.9.9.9"⟩]) ∧
    mapLoad overrideClient.staticIpV6 (Fqdn "example.com") = none ∧
    Query constUpstream overrideClient 0 "example.com" TypeAAAA =
      queryCacheRoute constUpstream overrideClient 0 (Fqdn "example.com") TypeAAAA :=
  ⟨by decide,
    static_override_precedence.1 Unit constUpstream overrideClient 0 "example.com"
      "9.9.9.9" (by decide),
    by decide,
    static_override_precedence.2.2.1 Unit constUpstream overrideClient 0 "example.com"
      (by decide)⟩

/-- C8: with no applicable static override, a cache miss, and no matching
routing rule, the dispatcher returns the empty answer list; `Query` is a
total function, so nothing else — in particular no error — ever reaches the
caller. -/
theorem no_route_empty_result :
    ∀ (H : Type) (interp : H → String → Nat → List Answer) (c : DNSClient H)
      (now : Int) (name0 : String) (qtype : Nat),
      noOverride c (Fqdn name0) qtype →
        (cacheGet c now (cacheKeyOf (Fqdn name0) qtype)).2 = none →
        route c.router (Fqdn name0) = none →
        Query interp c now name0 qtype =
          ((cacheGet c now (cacheKeyOf (Fqdn name0) qtype)).1, []) := by
  intro H interp c now name0 qtype hno hmiss hroute
  obtain ⟨hnoA, hnoB⟩ := hno
  have hAAne : TypeAAAA ≠ TypeA := by decide
  obtain ⟨c1, hcg⟩ : ∃ c1, cacheGet c now (cacheKeyOf (Fqdn name0) qtype) = (c1, none) :=
    ⟨(cacheGet c now (cacheKeyOf (Fqdn name0) qtype)).1, by rw [← hmiss]⟩
  have hc1 : (cacheGet c now (cacheKeyOf (Fqdn name0) qtype)).1 = c1 := by
    rw [hcg]
  have hroute1 : route c1.router (Fqdn name0) = none := by
    rw [← hc1, cacheGet_fst_router]
    exact hroute
  rw [hc1]
  by_cases hA : qtype = TypeA
  · subst hA
    simp [Query, hnoA rfl, queryCacheRoute, hcg, hroute1]
  · by_cases hB : qtype = TypeAAAA
    · subst hB
      simp [Query, hnoB rfl, hAAne, queryCacheRoute, hcg, hroute1]
    · simp [Query, hA, hB, queryCacheRoute, hcg, hroute1]

/-- Witness for C8 on a completely empty client. -/
theorem no_route_empty_result_witness :
    noOverride (emptyClient Unit) (Fqdn "other.com") TypeA ∧
    (cacheGet (emptyClient Unit) 0 (cacheKeyOf (Fqdn "other.com") TypeA)).2 = none ∧
    route (emptyClient Unit).router (Fqdn "other.com") = none ∧
    Query constUpstream (emptyClient Unit) 0 "other.com" TypeA =
      ((cacheGet (emptyClient Unit) 0 (cacheKeyOf (Fqdn "other.com") TypeA)).1, []) :=
  ⟨by decide, by decide, by decide,
    no_route_empty_result Unit constUpstream (emptyClient Unit) 0 "other.com" TypeA
      (by decide) (by decide) (by decide)⟩

/-! Helper lemmas about the routing walk. -/

theorem mem_labelSuffixes_length (cs : List Char) :
    ∀ s ∈ labelSuffixes cs, s.length < cs.length := by
  induction cs with
  | nil => intro s hs; cases hs
  | cons c rest ih =>
    intro s hs
    by_cases h : c = '.' ∧ rest ≠ []
    · rw [labelSuffixes, if_pos h] at hs
      rcases List.mem_cons.mp hs with rfl | hs2
      · simp
      · have := ih s hs2
        simp only [List.length_cons]
        omega
    · rw [labelSuffixes, if_neg h] at hs
      have := ih s hs
      simp only [List.length_cons]
      omega

theorem mem_labelSuffixes_isSuffix (cs : List Char) :
    ∀ s ∈ labelSuffixes cs, s <:+ cs := by
  induction cs with
  | nil => intro s hs; cases hs
  | cons c rest ih =>
    intro s hs
    by_cases h : c = '.' ∧ rest ≠ []
    · rw [labelSuffixes, if_pos h] at hs
      rcases List.mem_cons.mp hs with rfl | hs2
      · exact List.suffix_cons c s
      · exact (ih s hs2).trans (List.suffix_cons c rest)
    · rw [labelSuffixes, if_neg h] at hs
      exact (ih s hs).trans (List.suffix_cons c rest)

theorem labelSuffixes_pairwise (cs : List Char) :
    (labelSuffixes cs).Pairwise (fun a b => b.length < a.length) := by
  induction cs with
  | nil => exact List.Pairwise.nil
  | cons c rest ih =>
    by_cases h : c = '.' ∧ rest ≠ []
    · rw [labelSuffixes, if_pos h]
      exact List.Pairwise.cons (fun s hs => mem_labelSuffixes_length rest s hs) ih
    · rw [labelSuffixes, if_neg h]
      exact ih

theorem suffixChain_pairwise (domain : String) :
    (suffixChain domain).Pairwise (fun a b => b.length < a.length) := by
  have h1 : (domain.data :: labelSuffixes domain.data).Pairwise
      (fun a b => b.length < a.length) :=
    List.Pairwise.cons (fun s hs => mem_labelSuffixes_length domain.data s hs)
      (labelSuffixes_pairwise domain.data)
  simp only [suffixChain]
  rw [List.pairwise_map]
  exact h1

theorem mem_suffixChain_isSuffix (domain : String) :
    ∀ s ∈ suffixChain domain, s.data <:+ domain.data := by
  intro s hs
  simp only [suffixChain, List.mem_map] at hs
  rcases hs with ⟨l, hl, rfl⟩
  rcases List.mem_cons.mp hl with rfl | hl2
  · exact List.suffix_refl _
  · exact mem_labelSuffixes_isSuffix domain.data l hl2

theorem firstHit_eq_none {H : Type} (r : List (String × H)) :
    ∀ l : List String, firstHit r l = none ↔ ∀ s ∈ l, mapLoad r s = none := by
  intro l
  induction l with
  | nil => simp [firstHit]
  | cons s rest ih =>
    rcases h : mapLoad r s with _ | cli
    · simp [firstHit, h, ih]
    · simp [firstHit, h]

theorem firstHit_eq_some {H : Type} (r : List (String × H)) (cli : H) :
    ∀ l : List String, l.Pairwise (fun a b => b.length < a.length) →
      firstHit r l = some cli →
      ∃ s ∈ l, mapLoad r s = some cli ∧
        ∀ t ∈ l, s.length < t.length → mapLoad r t = none := by
  intro l
  induction l with
  | nil => intro _ hh; cases hh
  | cons s rest ih =>
    intro hp hh
    rcases List.pairwise_cons.mp hp with ⟨hlt, hp2⟩
    rcases h : mapLoad r s with _ | c2
    · simp only [firstHit, h] at hh
      rcases ih hp2 hh with ⟨s0, hs0, hload, hmax⟩
      refine ⟨s0, List.mem_cons_of_mem _ hs0, hload, ?_⟩
      intro t ht hlen
      rcases List.mem_cons.mp ht with rfl | ht2
      · exact h
      · exact hmax t ht2 hlen
    · simp only [firstHit, h, Option.some.injEq] at hh
      subst hh
      refine ⟨s, List.mem_cons_self s rest, h, ?_⟩
      intro t ht hlen
      rcases List.mem_cons.mp ht with rfl | ht2
      · exact absurd hlen (lt_irrefl _)
      · exact absurd hlen (not_lt.mpr (le_of_lt (hlt t ht2)))

/-- C2: the routing lookup realises longest-suffix matching.  A hit is the
handle of a domain in the walk sequence (the queried domain followed by the
successive parents obtained by stripping one leftmost label at a time, down
to the root); the matched domain is a suffix of the queried domain, and
every strictly longer candidate of the walk is unconfigured; a miss means no
candidate of the walk is configured.  The §8 examples behave as required:
with `example.com. → 1` and `mail.example.com. → 2` registered,
`x.mail.example.com.` routes to 2, `example.com.` to 1, and `other.com.` to
nothing. -/
theorem route_longest_suffix_match :
    (∀ (H : Type) (r : List (String × H)) (domain : String) (cli : H),
        route r domain = some cli →
          ∃ s ∈ suffixChain domain, mapLoad r s = some cli ∧
            s.data <:+ domain.data ∧
            ∀ t ∈ suffixChain domain, s.length < t.length → mapLoad r t = none) ∧
    (∀ (H : Type) (r : List (String × H)) (domain : String),
        route r domain = none → ∀ s ∈ suffixChain domain, mapLoad r s = none) ∧
    route exRouteTable "x.mail.example.com." = some 2 ∧
    route exRouteTable "example.com." = some 1 ∧
    route exRouteTable "other.com." = none := by
  refine ⟨?_, ?_, by decide, by decide, by decide⟩
  · intro H r domain cli hr
    rcases firstHit_eq_some r cli (suffixChain domain) (suffixChain_pairwise domain) hr
      with ⟨s, hs, hload, hmax⟩
    exact ⟨s, hs, hload, mem_suffixChain_isSuffix domain s hs, hmax⟩
  · intro H r domain hr
    exact (firstHit_eq_none r (suffixChain domain)).mp hr

/-- Witness for C2: the hit for `x.mail.example.com.` is a configured
suffix of the query, longer than every other configured candidate. -/
theorem route_longest_suffix_match_witness :
    route exRouteTable "x.mail.example.com." = some 2 ∧
    ∃ s ∈ suffixChain "x.mail.example.com.", mapLoad exRouteTable s = some 2 ∧
      s.data <:+ "x.mail.example.com.".data ∧
      ∀ t ∈ suffixChain "x.mail.example.com.", s.length < t.length →
        mapLoad exRouteTable t = none :=
  ⟨by decide,
    route_longest_suffix_match.1 Nat exRouteTable "x.mail.example.com." 2 (by decide)⟩

/-- Counterexample to C7 as stated: the dispatcher's cache key is built from
the `Fqdn`-normalised name, which preserves letter case, so the two casings
of `example.com` produce different keys, and the answer cached by a query
for `example.com` is not found under the key of `EXAMPLE.com`. -/
theorem cache_key_not_case_folded_cex :
    cacheKeyOf (Fqdn "EXAMPLE.com") TypeA ≠ cacheKeyOf (Fqdn "example.com") TypeA ∧
    (cacheGet (Query constUpstream comClient 0 "example.com" TypeA).1 0
        (cacheKeyOf (Fqdn "EXAMPLE.com") TypeA)).2 = none ∧
    (cacheGet (Query constUpstream comClient 0 "example.com" TypeA).1 0
        (cacheKeyOf (Fqdn "example.com") TypeA)).2 ≠ none := by
  refine ⟨by decide, by decide, by decide⟩

/-- C7 amended: the cache key combines the record-type code with the domain
name normalised to fully-qualified form with letter case preserved, so two
Query calls whose domains differ only in case use different cache keys — an
answer cached under one casing is not a cache hit for the other. -/
theorem cache_key_case_sensitive :
    (∀ (name1 name2 : String) (qtype : Nat),
        Fqdn name1 ≠ Fqdn name2 →
          cacheKeyOf (Fqdn name1) qtype ≠ cacheKeyOf (Fqdn name2) qtype) ∧
    Fqdn "EXAMPLE.com" ≠ Fqdn "example.com" ∧
    (cacheGet (Query constUpstream comClient 0 "example.com" TypeA).1 0
        (cacheKeyOf (Fqdn "EXAMPLE.com") TypeA)).2 = none := by
  refine ⟨?_, by decide, by decide⟩
  intro name1 name2 qtype hne he
  apply hne
  have hd := congrArg String.data he
  simp only [cacheKeyOf, String.data_append] at hd
  have hd2 : (Fqdn name1).data ++ (['|'] ++ (Nat.repr qtype).data) =
      (Fqdn name2).data ++ (['|'] ++ (Nat.repr qtype).data) := by
    simpa [List.append_assoc] using hd
  exact String.ext (List.append_cancel_right hd2)

/-- Witness for the amended C7 at the two concrete casings. -/
theorem cache_key_case_sensitive_witness :
    Fqdn "EXAMPLE.com" ≠ Fqdn "example.com" ∧
    cacheKeyOf (Fqdn "EXAMPLE.com") TypeA ≠ cacheKeyOf (Fqdn "example.com") TypeA :=
  ⟨by decide,
    cache_key_case_sensitive.1 "EXAMPLE.com" "example.com" TypeA (by decide)⟩

end Shunt
